import Mathlib

/-!
Verification of the perception-to-extraction pipeline of the stagehand
repository: the DOM snapshot and annotation extractor
(src/lib/handlers/extractHandler.ts) and the two LLM completion backend
adapters (AnthropicClient and OpenAIClient, src/lib/llm).

Coordinates and viewport sizes are modelled over the rationals; message
contents, schemas, DOM snapshots, and JSON payloads are modelled as
strings or opaque string wrappers.  Page evaluation calls and the
inference backend are inputs to the model (oracles) since they are
external collaborators of the code under verification.
-/

/-! ## Part 1: the DOM snapshot and annot extractor (extractHandler.ts) -/

/-- A viewport, as returned by page.viewportSize(). -/
structure Viewport where
  width : ℚ
  height : ℚ
deriving DecidableEq

/-- A point with x and y coordinates. -/
structure Pt where
  x : ℚ
  y : ℚ
deriving DecidableEq

/-- A bounding box returned by window.getElementBoundingBoxes
(extractHandler.ts lines 102-111). -/
structure Box where
  text : String
  left : ℚ
  top : ℚ
  width : ℚ
  height : ℚ
deriving DecidableEq

/-- A text annot record (the TextAnnotation type from src/lib/types):
text, midpoint in pixels, normalized midpoint, width and height. -/
structure TextAnnot where
  text : String
  midpoint : Pt
  midpoint_normalized : Pt
  width : ℚ
  height : ℚ
deriving DecidableEq

/-- The dedup key built at extractHandler.ts lines 114-120:
JSON.stringify of (text, left+width/2, top+height/2, width, height).
JSON.stringify of this fixed-shape object is injective on the
underlying tuples, so the set of key strings is modelled as a set of
key tuples. -/
structure BoxKey where
  text : String
  x : ℚ
  y : ℚ
  width : ℚ
  height : ℚ
deriving DecidableEq

def annotKey (b : Box) : BoxKey :=
  { text := b.text
    x := b.left + b.width / 2
    y := b.top + b.height / 2
    width := b.width
    height := b.height }

/-- The TextAnnotation built at extractHandler.ts lines 124-136.
Note: the y component of midpoint_normalized in the source reads
box.top + box.height / viewportSize().height, with division binding
tighter than addition; the translation keeps that grouping. -/
def mkAnnot (vp : Viewport) (b : Box) : TextAnnot :=
  { text := b.text
    midpoint := { x := b.left, y := b.top + b.height }
    midpoint_normalized := { x := b.left / vp.width, y := b.top + b.height / vp.height }
    width := b.width
    height := b.height }

/-- The inner loop of extractHandler.ts lines 113-138: fold over the
bounding boxes, threading the set of seen dedup keys and the array of
emitted annots. -/
def processBoxList (vp : Viewport) : List BoxKey → List TextAnnot → List Box →
    List BoxKey × List TextAnnot
  | seen, anns, [] => (seen, anns)
  | seen, anns, b :: bs =>
    let k := annotKey b
    if k ∈ seen then processBoxList vp seen anns bs
    else processBoxList vp (k :: seen) (anns ++ [mkAnnot vp b]) bs

/-- The annot list produced from a flat sequence of bounding boxes,
starting from an empty seen set (extractHandler.ts lines 96-97). -/
def annotsOf (vp : Viewport) (boxes : List Box) : List TextAnnot :=
  (processBoxList vp [] [] boxes).2

/-- First-occurrence deduplication by a key function: keeps each element
whose key has not occurred earlier, in order of first occurrence.  This
is the specification-side description of the dedup behaviour. -/
def dedupByFirst {β κ : Type} [DecidableEq κ] (key : β → κ) : List β → List β
  | [] => []
  | b :: bs => b :: dedupByFirst key (bs.filter fun b2 => decide (key b2 ≠ key b))
termination_by l => l.length
decreasing_by
  simp only [List.length_cons]
  exact Nat.lt_succ_of_le (List.length_filter_le _ _)

/-- Metadata of an extraction response: the completed flag. -/
structure ExtractMetadata where
  completed : Bool
deriving DecidableEq

/-- An extraction inference response: metadata plus the schema-shaped
rest of the object (the spread rest at extractHandler.ts lines 163-166). -/
structure ExtractionResponse (α : Type) where
  metadata : ExtractMetadata
  output : α
deriving DecidableEq

/-- Modelled from the spec: formatText (src/lib/utils.ts, whose source is
not among the provided files) formats the annot sequence into a single
text block, one logical line per annot, in list order (spec section 4.1
step 9). -/
def formatText (anns : List TextAnnot) : String :=
  String.intercalate "\n" (anns.map (fun a => a.text))

/-- The external collaborators of StagehandExtractHandler.extract: the
page evaluation boundary (spec section 6) and the inference backend.
Each fallible remote call is an Except value; injectBoxes is the side
effect of window.createTextBoundingBoxes on the live DOM, which
window.restoreDOM reverses by reinstating the snapshot. -/
structure ExtractOracle (α : Type) where
  waitForSettledDom : Except String Unit
  startDomDebug : Except String Unit
  cleanupDomDebug : Except String Unit
  processAllOfDom : Except String (List (List String))
  createTextBoundingBoxes : Except String Unit
  injectBoxes : String → String
  getElementBoundingBoxes : String → Except String (List Box)
  viewport : Viewport
  inference : String → Except String (ExtractionResponse α)

/-- The loop of extractHandler.ts lines 99-139: for each selector map
entry take the first xpath, evaluate its bounding boxes, and fold them
into the seen set and annot list. -/
def collectBoxLoop {α : Type} (oracle : ExtractOracle α) :
    List BoxKey → List TextAnnot → List (List String) →
    Except String (List BoxKey × List TextAnnot)
  | seen, anns, [] => Except.ok (seen, anns)
  | seen, anns, xpaths :: rest =>
    match oracle.getElementBoundingBoxes (xpaths.headD "") with
    | Except.error e => Except.error e
    | Except.ok boxes =>
      let p := processBoxList oracle.viewport seen anns boxes
      collectBoxLoop oracle p.1 p.2 rest

/-- StagehandExtractHandler.extract (extractHandler.ts lines 54-196),
as a function of the oracle and the live DOM before the call.  The
second component of the result is the live DOM after the call returns
or throws.  The source awaits each step in sequence with no try/finally,
so an error at any step propagates immediately, leaving the DOM in
whatever state the completed steps produced. -/
def StagehandExtractHandler.extract {α : Type} (oracle : ExtractOracle α)
    (dom0 : String) : Except String α × String :=
  match oracle.waitForSettledDom with
  | Except.error e => (Except.error e, dom0)
  | Except.ok _ =>
  match oracle.startDomDebug with
  | Except.error e => (Except.error e, dom0)
  | Except.ok _ =>
  let originalDOM := dom0
  match oracle.processAllOfDom with
  | Except.error e => (Except.error e, dom0)
  | Except.ok selectorValues =>
  match oracle.createTextBoundingBoxes with
  | Except.error e => (Except.error e, dom0)
  | Except.ok _ =>
  let dom1 := oracle.injectBoxes dom0
  match collectBoxLoop oracle [] [] selectorValues with
  | Except.error e => (Except.error e, dom1)
  | Except.ok p =>
  let dom2 := originalDOM
  match oracle.inference (formatText p.2) with
  | Except.error e => (Except.error e, dom2)
  | Except.ok resp =>
  match oracle.cleanupDomDebug with
  | Except.error e => (Except.error e, dom2)
  | Except.ok _ =>
  if resp.metadata.completed then (Except.ok resp.output, dom2)
  else (Except.error "Extraction not completed", dom2)

/-- An all-succeeding oracle, used to instantiate theorems. -/
def pureOracle {α : Type} (f : String → List Box) (vp : Viewport)
    (svs : List (List String)) (resp : Except String (ExtractionResponse α)) :
    ExtractOracle α :=
  { waitForSettledDom := Except.ok ()
    startDomDebug := Except.ok ()
    cleanupDomDebug := Except.ok ()
    processAllOfDom := Except.ok svs
    createTextBoundingBoxes := Except.ok ()
    injectBoxes := fun d => d ++ "[boxes]"
    getElementBoundingBoxes := fun xp => Except.ok (f xp)
    viewport := vp
    inference := fun _ => resp }

/-! ## Part 2: the completion backend adapters (AnthropicClient, OpenAIClient) -/

/-- One part of a structured chat message content: a text part or an
image part (type "image_url" in the source). -/
inductive ContentPart
  | text (t : String)
  | image (url : String)
deriving DecidableEq

/-- Chat message content: a plain string or an array of parts. -/
inductive MsgContent
  | str (s : String)
  | parts (ps : List ContentPart)
deriving DecidableEq

/-- A role-tagged chat message. -/
structure ChatMessage where
  role : String
  content : MsgContent
deriving DecidableEq

/-- An image attachment: the buffer is modelled by its base64 string. -/
structure ImageInput where
  buffer : String
  description : Option String
deriving DecidableEq

/-- A response model: a name plus the zod schema, modelled opaquely as a
string. -/
structure ResponseModel where
  name : String
  schema : String
deriving DecidableEq

/-- A caller-supplied tool: a function tool (name, description,
parameters modelled opaquely) or any other tool passed through. -/
inductive Tool
  | function (name description parameters : String)
  | other (raw : String)
deriving DecidableEq

/-- The ChatCompletionOptions record (from src/lib/llm/LLMClient.ts,
reconstructed from the fields both adapters read). -/
structure ChatCompletionOptions where
  messages : List ChatMessage
  temperature : Option ℚ
  top_p : Option ℚ
  frequency_penalty : Option ℚ
  presence_penalty : Option ℚ
  image : Option ImageInput
  response_model : Option ResponseModel
  tools : Option (List Tool)
  requestId : Option String
  maxTokens : Option Nat
  retries : Option Nat
deriving DecidableEq

/-- The cacheOptions object built by AnthropicClient.createChatCompletion
(AnthropicClient.ts lines 47-55): model, messages, temperature, image,
response_model, tools and retries — requestId is deliberately absent. -/
structure AnthropicCacheOptions where
  model : String
  messages : List ChatMessage
  temperature : Option ℚ
  image : Option ImageInput
  response_model : Option ResponseModel
  tools : Option (List Tool)
  retries : Option Nat
deriving DecidableEq

def anthCacheOptions (modelName : String) (o : ChatCompletionOptions) :
    AnthropicCacheOptions :=
  { model := modelName
    messages := o.messages
    temperature := o.temperature
    image := o.image
    response_model := o.response_model
    tools := o.tools
    retries := o.retries }

/-- The cacheOptions object built by OpenAIClient.createChatCompletion
(AnthropicClient.ts file, lines 403-412): model, messages, temperature,
top_p, frequency_penalty, presence_penalty, image and response_model —
requestId is deliberately absent. -/
structure OpenAICacheOptions where
  model : String
  messages : List ChatMessage
  temperature : Option ℚ
  top_p : Option ℚ
  frequency_penalty : Option ℚ
  presence_penalty : Option ℚ
  image : Option ImageInput
  response_model : Option ResponseModel
deriving DecidableEq

def openaiCacheOptions (modelName : String) (o : ChatCompletionOptions) :
    OpenAICacheOptions :=
  { model := modelName
    messages := o.messages
    temperature := o.temperature
    top_p := o.top_p
    frequency_penalty := o.frequency_penalty
    presence_penalty := o.presence_penalty
    image := o.image
    response_model := o.response_model }

/-- Modelled from the spec: the LLMCache component
(src/lib/cache/LLMCache.ts is not among the provided sources).  Per
spec section 4.4 it is a key-value store from fingerprint to last
written value; requestId is accepted for observability only and must
not influence identity or the hit/miss outcome, so the lookup ignores
it. -/
def cacheGet {K V : Type} [DecidableEq K] (c : List (K × V)) (k : K)
    (_requestId : Option String) : Option V :=
  (c.find? fun e => decide (e.1 = k)).map (fun e => e.2)

/-- Modelled from the spec: the write half of the LLMCache component
(see cacheGet); a later write for the same fingerprint overwrites the
previous entry. -/
def cacheSet {K V : Type} [DecidableEq K] (c : List (K × V)) (k : K) (v : V)
    (_requestId : Option String) : List (K × V) :=
  (k, v) :: c.filter fun e => decide (e.1 ≠ k)

/-- Observable steps a completion call performs against the cache and
the vendor API, in order. -/
inductive CacheEvent (K V : Type)
  | get (key : K)
  | vendorCall
  | set (key : K) (value : V)
  | pushMessage
deriving DecidableEq

def isVendorCall {K V : Type} : CacheEvent K V → Bool
  | CacheEvent.vendorCall => true
  | _ => false

def isGetEvent {K V : Type} : CacheEvent K V → Bool
  | CacheEvent.get _ => true
  | _ => false

def isSetEvent {K V : Type} : CacheEvent K V → Bool
  | CacheEvent.set _ _ => true
  | _ => false

def getKeys {K V : Type} (t : List (CacheEvent K V)) : List K :=
  t.filterMap fun e => match e with
    | CacheEvent.get k => some k
    | _ => none

/-- A content block of a formatted Anthropic message.  The per-part
mapping at AnthropicClient.ts lines 123-129 produces undefined for
non-text parts, hence the Option in formatted content. -/
inductive AnthBlock
  | text (t : String)
  | image (mediaType data : String)
deriving DecidableEq

inductive AnthContent
  | str (s : String)
  | blocks (bs : List (Option AnthBlock))
deriving DecidableEq

structure AnthMessage where
  role : String
  content : AnthContent
deriving DecidableEq

/-- A tool in Anthropic format (lines 163-176): converted function tools
keep name, description and the input schema (modelled opaquely); any
other tool is passed through unchanged. -/
inductive AnthTool
  | converted (name description inputSchema : String)
  | passthrough (raw : String)
deriving DecidableEq

/-- The request sent to the Anthropic SDK (lines 210-219). -/
structure AnthRequest where
  model : String
  maxTokens : Nat
  messages : List AnthMessage
  tools : Option (List AnthTool)
  system : Option MsgContent
  temperature : Option ℚ
deriving DecidableEq

/-- A content block of an Anthropic response: text or tool_use (the
tool input is an opaque JSON value modelled as a string). -/
inductive AnthRespBlock
  | text (t : String)
  | toolUse (id name input : String)
deriving DecidableEq

/-- The Anthropic SDK response (the fields the adapter reads). -/
structure AnthropicResponse where
  id : String
  model : String
  content : List AnthRespBlock
  stopReason : String
  inputTokens : Nat
  outputTokens : Nat
deriving DecidableEq

structure ToolCall where
  id : String
  name : String
  arguments : String
deriving DecidableEq

/-- The transformed (OpenAI-shaped) completion built at lines 238-270.
created is Date.now(), threaded as the clock argument now. -/
structure TransformedResponse where
  id : String
  object : String
  created : Nat
  model : String
  content : Option String
  toolCalls : List ToolCall
  finishReason : String
  promptTokens : Nat
  completionTokens : Nat
  totalTokens : Nat
deriving DecidableEq

/-- The OpenAI SDK response; only the field this adapter reads
(choices[0].message.content) is modelled, the rest is carried opaquely. -/
structure OpenAIResponse where
  content : Option String
  raw : String
deriving DecidableEq

/-- The request sent to the OpenAI SDK (lines 527-534): requestId and
image have been deleted from the options; the message formatting at
lines 499-525 preserves text and image parts verbatim, so messages are
carried unchanged. -/
structure OpenAIRequest where
  model : String
  messages : List ChatMessage
  temperature : Option ℚ
  top_p : Option ℚ
  frequency_penalty : Option ℚ
  presence_penalty : Option ℚ
  response_format : Option ResponseModel
  tools : Option (List Tool)
  stream : Bool
deriving DecidableEq

/-- A value returned by a completion call and stored in the cache: an
Anthropic transformed completion, an Anthropic structured tool input,
an OpenAI parsed structured object (the parsed content of
choices[0].message.content), or a raw OpenAI response. -/
inductive LLMValue
  | raw (t : TransformedResponse)
  | structured (input : String)
  | openaiParsed (content : Option String)
  | openaiRaw (r : OpenAIResponse)
deriving DecidableEq

def isImagePart : ContentPart → Bool
  | ContentPart.image _ => true
  | ContentPart.text _ => false

/-- The per-part mapping of AnthropicClient.ts lines 123-129: text parts
become text blocks, every other part (the source comment says image
content is not handled) becomes undefined. -/
def anthPartToBlock : ContentPart → Option AnthBlock
  | ContentPart.text t => some (AnthBlock.text t)
  | ContentPart.image _ => none

/-- The message mapping of lines 114-132. -/
def anthFormatMessage (msg : ChatMessage) : AnthMessage :=
  match msg.content with
  | MsgContent.str s => { role := msg.role, content := AnthContent.str s }
  | MsgContent.parts ps =>
    { role := msg.role, content := AnthContent.blocks (ps.map anthPartToBlock) }

/-- Whether a message content is free of image parts (string content or
every part of type other than image_url), lines 106-108. -/
def contentAllNonImage : MsgContent → Bool
  | MsgContent.str _ => true
  | MsgContent.parts ps => ps.all fun p => !(isImagePart p)

/-- The system message selection of lines 103-109. -/
def systemMessageOf (msgs : List ChatMessage) : Option ChatMessage :=
  msgs.find? fun msg => msg.role == "system" && contentAllNonImage msg.content

/-- The non-system messages of lines 110-112. -/
def userMessages (msgs : List ChatMessage) : List ChatMessage :=
  msgs.filter fun msg => msg.role != "system"

/-- The screenshot user turn appended when options.image is present
(lines 134-160): a base64 image block, then an optional text caption. -/
def anthScreenshotMessage (img : ImageInput) : AnthMessage :=
  { role := "user"
    content := AnthContent.blocks
      ([some (AnthBlock.image "image/jpeg" img.buffer)] ++
        (match img.description with
         | some d => [some (AnthBlock.text d)]
         | none => [])) }

def toAnthTool : Tool → AnthTool
  | Tool.function n d params => AnthTool.converted n d params
  | Tool.other raw => AnthTool.passthrough raw

/-- The tool list sent to Anthropic (lines 163-208): caller tools
converted, plus the forcing tool print_extracted_data built from the
response model schema when one was requested (zodToJsonSchema and the
property extraction are modelled opaquely by the schema string). -/
def anthToolsOf (o : ChatCompletionOptions) : Option (List AnthTool) :=
  match o.response_model with
  | some rm => some
      (((o.tools.map fun ts => ts.map toAnthTool).getD []) ++
        [AnthTool.converted "print_extracted_data"
          "Prints the extracted data based on the provided schema." rm.schema])
  | none => o.tools.map fun ts => ts.map toAnthTool

/-- The request assembled at lines 210-219.  maxTokens uses the JS
truthiness of options.maxTokens || 1500 (0 and undefined both fall back
to 1500). -/
def buildAnthropicRequest (modelName : String) (o : ChatCompletionOptions) :
    AnthRequest :=
  { model := modelName
    maxTokens := match o.maxTokens with
      | some n => if n = 0 then 1500 else n
      | none => 1500
    messages := (userMessages o.messages).map anthFormatMessage ++
      (match o.image with
       | some img => [anthScreenshotMessage img]
       | none => [])
    tools := anthToolsOf o
    system := (systemMessageOf o.messages).map fun msg => msg.content
    temperature := o.temperature }

def isTextBlock : AnthRespBlock → Bool
  | AnthRespBlock.text _ => true
  | _ => false

def isToolUseBlock : AnthRespBlock → Bool
  | AnthRespBlock.toolUse _ _ _ => true
  | _ => false

/-- The transformed response of lines 238-270.  The source computes
content as find(text)?.text || null, so an empty text coalesces to
null; tool call arguments are JSON.stringify of the opaque input. -/
def transformResponse (now : Nat) (r : AnthropicResponse) : TransformedResponse :=
  { id := r.id
    object := "chat.completion"
    created := now
    model := r.model
    content := match r.content.find? isTextBlock with
      | some (AnthRespBlock.text t) => if t = "" then none else some t
      | _ => none
    toolCalls := (r.content.filter isToolUseBlock).map fun b =>
      match b with
      | AnthRespBlock.toolUse i n inp => { id := i, name := n, arguments := inp }
      | _ => { id := "", name := "", arguments := "" }
    finishReason := r.stopReason
    promptTokens := r.inputTokens
    completionTokens := r.outputTokens
    totalTokens := r.inputTokens + r.outputTokens }

/-- AnthropicClient.createChatCompletion (lines 30-345), with an
explicit fuel argument that mirrors the bound enforced by the retries
counter: the recursion at lines 298-302 happens only while
(options.retries ?? 0) < 5, so from an entry value r the call nests at
most 5 - r + 1 times; the entry point below supplies exactly that fuel,
which keeps the fuel-exhausted branch unreachable.  The condition
!options.retries || options.retries < 5 equals (retries ?? 0) < 5
because JS treats undefined and 0 as falsy.  The result is the returned
or thrown value, the cache after the call, and the ordered trace of
cache reads, vendor calls and cache writes. -/
def anthropicAux (vendor : AnthRequest → AnthropicResponse) (enableCaching : Bool)
    (modelName : String) (now : Nat) :
    Nat → List (AnthropicCacheOptions × LLMValue) → ChatCompletionOptions →
    Except String LLMValue × List (AnthropicCacheOptions × LLMValue) ×
      List (CacheEvent AnthropicCacheOptions LLMValue)
  | 0, cache, _ => (Except.error "unreachable: retry fuel exhausted", cache, [])
  | fuel + 1, cache, o =>
    let key := anthCacheOptions modelName o
    match (if enableCaching then cacheGet cache key o.requestId else none) with
    | some v => (Except.ok v, cache, [CacheEvent.get key])
    | none =>
      let preTrace : List (CacheEvent AnthropicCacheOptions LLMValue) :=
        if enableCaching then [CacheEvent.get key] else []
      let response := vendor (buildAnthropicRequest modelName o)
      let transformed := transformResponse now response
      match o.response_model with
      | some _ =>
        match response.content.find? isToolUseBlock with
        | some (AnthRespBlock.toolUse _ _ input) =>
          let result := LLMValue.structured input
          ((Except.ok result),
            (if enableCaching then cacheSet cache key result o.requestId else cache),
            preTrace ++ [CacheEvent.vendorCall] ++
              (if enableCaching then [CacheEvent.set key result] else []))
        | _ =>
          if (o.retries).getD 0 < 5 then
            let rec_ := anthropicAux vendor enableCaching modelName now fuel cache
              { o with retries := some ((o.retries).getD 0 + 1) }
            (rec_.1, rec_.2.1, preTrace ++ [CacheEvent.vendorCall] ++ rec_.2.2)
          else
            (Except.error "Create Chat Completion Failed: No tool use with input in response",
              cache, preTrace ++ [CacheEvent.vendorCall])
      | none =>
        let result := LLMValue.raw transformed
        ((Except.ok result),
          (if enableCaching then cacheSet cache key result o.requestId else cache),
          preTrace ++ [CacheEvent.vendorCall] ++
            (if enableCaching then [CacheEvent.set key result] else []))

/-- Entry point of AnthropicClient.createChatCompletion: supplies the
fuel that the retries bound guarantees sufficient. -/
def AnthropicClient.createChatCompletion (vendor : AnthRequest → AnthropicResponse)
    (enableCaching : Bool) (modelName : String) (now : Nat)
    (cache : List (AnthropicCacheOptions × LLMValue)) (o : ChatCompletionOptions) :
    Except String LLMValue × List (AnthropicCacheOptions × LLMValue) ×
      List (CacheEvent AnthropicCacheOptions LLMValue) :=
  anthropicAux vendor enableCaching modelName now (5 - (o.retries).getD 0 + 1) cache o

/-- The screenshot user turn pushed by OpenAIClient when options.image
is present (lines 452-469). -/
def openaiScreenshotMessage (img : ImageInput) : ChatMessage :=
  { role := "user"
    content := MsgContent.parts
      ([ContentPart.image ("data:image/jpeg;base64," ++ img.buffer)] ++
        (match img.description with
         | some d => [ContentPart.text d]
         | none => [])) }

def isFunctionTool : Tool → Bool
  | Tool.function _ _ _ => true
  | _ => false

/-- The request body of lines 527-534. -/
def buildOpenAIRequest (modelName : String) (o : ChatCompletionOptions) :
    OpenAIRequest :=
  { model := modelName
    messages := o.messages
    temperature := o.temperature
    top_p := o.top_p
    frequency_penalty := o.frequency_penalty
    presence_penalty := o.presence_penalty
    response_format := o.response_model
    tools := o.tools.map fun ts => ts.filter isFunctionTool
    stream := false }

/-- OpenAIClient.createChatCompletion (lines 383-597).  The third
component of the result is the caller-visible options.messages array
after the call: the source pushes the screenshot message onto the
caller-supplied array in place (line 468).  Because cacheOptions holds
a reference to that same array, the write key is recomputed from the
mutated messages while the read key was computed before the push.
JSON.parse of the content is modelled opaquely by keeping the content. -/
def OpenAIClient.createChatCompletion (vendor : OpenAIRequest → OpenAIResponse)
    (enableCaching : Bool) (modelName : String)
    (cache : List (OpenAICacheOptions × LLMValue)) (o : ChatCompletionOptions) :
    Except String LLMValue × List (OpenAICacheOptions × LLMValue) ×
      List ChatMessage × List (CacheEvent OpenAICacheOptions LLMValue) :=
  let key := openaiCacheOptions modelName o
  match (if enableCaching then cacheGet cache key o.requestId else none) with
  | some v => (Except.ok v, cache, o.messages, [CacheEvent.get key])
  | none =>
    let preTrace : List (CacheEvent OpenAICacheOptions LLMValue) :=
      if enableCaching then [CacheEvent.get key] else []
    let messages1 := match o.image with
      | some img => o.messages ++ [openaiScreenshotMessage img]
      | none => o.messages
    let pushTrace : List (CacheEvent OpenAICacheOptions LLMValue) :=
      match o.image with
      | some _ => [CacheEvent.pushMessage]
      | none => []
    let o1 := { o with messages := messages1 }
    let key1 := openaiCacheOptions modelName o1
    let response := vendor (buildOpenAIRequest modelName o1)
    match o.response_model with
    | some _ =>
      let result := LLMValue.openaiParsed response.content
      ((Except.ok result),
        (if enableCaching then cacheSet cache key1 result o.requestId else cache),
        messages1,
        preTrace ++ pushTrace ++ [CacheEvent.vendorCall] ++
          (if enableCaching then [CacheEvent.set key1 result] else []))
    | none =>
      let result := LLMValue.openaiRaw response
      ((Except.ok result),
        (if enableCaching then cacheSet cache key1 result o.requestId else cache),
        messages1,
        preTrace ++ pushTrace ++ [CacheEvent.vendorCall] ++
          (if enableCaching then [CacheEvent.set key1 result] else []))

/-- A neutral sample message, options record, vendor and response used
to instantiate theorems on concrete inputs. -/
def sampleMessage : ChatMessage :=
  { role := "user", content := MsgContent.str "hi" }

def sampleOptions : ChatCompletionOptions :=
  { messages := [sampleMessage]
    temperature := none
    top_p := none
    frequency_penalty := none
    presence_penalty := none
    image := none
    response_model := none
    tools := none
    requestId := some "rid"
    maxTokens := none
    retries := none }

def sampleVendor : AnthRequest → AnthropicResponse :=
  fun _ => { id := "id0", model := "m", content := [AnthRespBlock.text "no"],
             stopReason := "end_turn", inputTokens := 1, outputTokens := 2 }

def sampleOpenAIVendor : OpenAIRequest → OpenAIResponse :=
  fun _ => { content := some "resp", raw := "raw" }

def blockIsImage : Option AnthBlock → Bool
  | some (AnthBlock.image _ _) => true
  | _ => false

def msgHasImageBlock (msg : AnthMessage) : Bool :=
  match msg.content with
  | AnthContent.str _ => false
  | AnthContent.blocks bs => bs.any blockIsImage

/-! ### Lemmas about the dedup loop -/

lemma decide_notmem_cons {κ : Type} [DecidableEq κ] (a k : κ) (seen : List κ) :
    decide (a ∉ k :: seen) = (decide (a ≠ k) && decide (a ∉ seen)) := by
  by_cases h1 : a = k <;> by_cases h2 : a ∈ seen <;> simp [h1, h2]

lemma dedupByFirst_cons {β κ : Type} [DecidableEq κ] (key : β → κ) (b : β) (bs : List β) :
    dedupByFirst key (b :: bs) =
      b :: dedupByFirst key (bs.filter fun b2 => decide (key b2 ≠ key b)) := by
  rw [dedupByFirst]

lemma processBoxList_snd (vp : Viewport) :
    ∀ (l : List Box) (seen : List BoxKey) (anns : List TextAnnot),
    (processBoxList vp seen anns l).2 =
      anns ++ (dedupByFirst annotKey (l.filter fun b => decide (annotKey b ∉ seen))).map (mkAnnot vp) := by
  intro l
  induction l with
  | nil => intro seen anns; simp [processBoxList, dedupByFirst]
  | cons b bs ih =>
    intro seen anns
    by_cases hmem : annotKey b ∈ seen
    · rw [show processBoxList vp seen anns (b :: bs) = processBoxList vp seen anns bs by
        simp [processBoxList, hmem]]
      rw [ih seen anns]
      have hcons : ((b :: bs).filter fun b2 => decide (annotKey b2 ∉ seen)) =
          (bs.filter fun b2 => decide (annotKey b2 ∉ seen)) := by
        rw [List.filter_cons]
        simp [hmem]
      rw [hcons]
    · rw [show processBoxList vp seen anns (b :: bs) =
          processBoxList vp (annotKey b :: seen) (anns ++ [mkAnnot vp b]) bs by
        simp [processBoxList, hmem]]
      rw [ih (annotKey b :: seen) (anns ++ [mkAnnot vp b])]
      have hfil : (bs.filter fun b2 => decide (annotKey b2 ∉ annotKey b :: seen)) =
          ((bs.filter fun b2 => decide (annotKey b2 ∉ seen)).filter
            fun b2 => decide (annotKey b2 ≠ annotKey b)) := by
        rw [List.filter_filter]
        apply List.filter_congr
        intro x _
        rw [decide_notmem_cons]
      rw [hfil]
      have hcons : ((b :: bs).filter fun b2 => decide (annotKey b2 ∉ seen)) =
          b :: (bs.filter fun b2 => decide (annotKey b2 ∉ seen)) := by
        rw [List.filter_cons]
        simp [hmem]
      rw [hcons, dedupByFirst_cons]
      simp

lemma dedupByFirst_sublist_aux {β κ : Type} [DecidableEq κ] (key : β → κ) :
    ∀ (n : Nat) (l : List β), l.length ≤ n → (dedupByFirst key l).Sublist l := by
  intro n
  induction n with
  | zero =>
    intro l h
    have : l = [] := List.length_eq_zero.mp (Nat.le_zero.mp h)
    subst this
    simp [dedupByFirst]
  | succ n ih =>
    intro l h
    match l with
    | [] => simp [dedupByFirst]
    | b :: bs =>
      rw [dedupByFirst_cons]
      apply List.Sublist.cons₂
      have hlen : (bs.filter fun b2 => decide (key b2 ≠ key b)).length ≤ n :=
        le_trans (List.length_filter_le _ _) (Nat.le_of_succ_le_succ h)
      exact (ih _ hlen).trans (List.filter_sublist _)

lemma dedupByFirst_sublist {β κ : Type} [DecidableEq κ] (key : β → κ) (l : List β) :
    (dedupByFirst key l).Sublist l :=
  dedupByFirst_sublist_aux key l.length l le_rfl

lemma dedupByFirst_keys_nodup_aux {β κ : Type} [DecidableEq κ] (key : β → κ) :
    ∀ (n : Nat) (l : List β), l.length ≤ n → ((dedupByFirst key l).map key).Nodup := by
  intro n
  induction n with
  | zero =>
    intro l h
    have : l = [] := List.length_eq_zero.mp (Nat.le_zero.mp h)
    subst this
    simp [dedupByFirst]
  | succ n ih =>
    intro l h
    match l with
    | [] => simp [dedupByFirst]
    | b :: bs =>
      rw [dedupByFirst_cons]
      rw [List.map_cons, List.nodup_cons]
      constructor
      · intro hk
        rcases List.mem_map.mp hk with ⟨x, hx, hkey⟩
        have hxf : x ∈ bs.filter fun b2 => decide (key b2 ≠ key b) :=
          (dedupByFirst_sublist key _).subset hx
        have := (List.mem_filter.mp hxf).2
        simp only [decide_not, Bool.not_eq_true', decide_eq_false_iff_not] at this
        exact this hkey
      · have hlen : (bs.filter fun b2 => decide (key b2 ≠ key b)).length ≤ n :=
          le_trans (List.length_filter_le _ _) (Nat.le_of_succ_le_succ h)
        exact ih _ hlen

lemma dedupByFirst_keys_nodup {β κ : Type} [DecidableEq κ] (key : β → κ) (l : List β) :
    ((dedupByFirst key l).map key).Nodup :=
  dedupByFirst_keys_nodup_aux key l.length l le_rfl

lemma dedupByFirst_keys_mem_aux {β κ : Type} [DecidableEq κ] (key : β → κ) :
    ∀ (n : Nat) (l : List β), l.length ≤ n →
      ∀ k0, k0 ∈ l.map key → k0 ∈ (dedupByFirst key l).map key := by
  intro n
  induction n with
  | zero =>
    intro l h
    have : l = [] := List.length_eq_zero.mp (Nat.le_zero.mp h)
    subst this
    simp
  | succ n ih =>
    intro l h k0 hk0
    match l with
    | [] => simp at hk0
    | b :: bs =>
      rw [dedupByFirst_cons]
      rw [List.map_cons, List.mem_cons]
      by_cases hb : k0 = key b
      · exact Or.inl hb
      · right
        rcases List.mem_map.mp (by simpa [hb] using hk0) with ⟨x, hx, hkey⟩
        have hxf : x ∈ bs.filter fun b2 => decide (key b2 ≠ key b) := by
          apply List.mem_filter.mpr
          refine ⟨hx, ?_⟩
          simp only [decide_not, Bool.not_eq_true', decide_eq_false_iff_not,
            Decidable.not_not]
          intro hcontra
          exact hb (hkey ▸ hcontra ▸ rfl)
        have hlen : (bs.filter fun b2 => decide (key b2 ≠ key b)).length ≤ n :=
          le_trans (List.length_filter_le _ _) (Nat.le_of_succ_le_succ h)
        exact ih _ hlen k0 (List.mem_map.mpr ⟨x, hxf, hkey⟩)

lemma dedupByFirst_keys_mem {β κ : Type} [DecidableEq κ] (key : β → κ) (l : List β) :
    ∀ k0, k0 ∈ (dedupByFirst key l).map key ↔ k0 ∈ l.map key := by
  intro k0
  constructor
  · intro h
    exact ((dedupByFirst_sublist key l).map key).subset h
  · exact dedupByFirst_keys_mem_aux key l.length l le_rfl k0

lemma processBoxList_append (vp : Viewport) :
    ∀ (l1 l2 : List Box) (seen : List BoxKey) (anns : List TextAnnot),
    processBoxList vp seen anns (l1 ++ l2) =
      processBoxList vp (processBoxList vp seen anns l1).1 (processBoxList vp seen anns l1).2 l2 := by
  intro l1
  induction l1 with
  | nil => intro l2 seen anns; simp [processBoxList]
  | cons b bs ih =>
    intro l2 seen anns
    by_cases hmem : annotKey b ∈ seen <;>
      simp [processBoxList, hmem, ih]

lemma collectBoxLoop_pure {α : Type} (resp : Except String (ExtractionResponse α))
    (f : String → List Box) (vp : Viewport) (svs0 : List (List String)) :
    ∀ (svs : List (List String)) (seen : List BoxKey) (anns : List TextAnnot),
    collectBoxLoop (pureOracle f vp svs0 resp) seen anns svs =
      Except.ok (processBoxList vp seen anns ((svs.map fun xps => f (xps.headD "")).flatten)) := by
  intro svs
  induction svs with
  | nil => intro seen anns; simp [collectBoxLoop, processBoxList]
  | cons xps rest ih =>
    intro seen anns
    simp only [collectBoxLoop, pureOracle, List.map_cons, List.flatten]
    rw [processBoxList_append]
    exact ih _ _

/-- Claim C3: on first occurrence, the annot for a box has
midpoint = (left, top+height); the claim further says
midpoint_normalized = (left/viewportWidth, (top+height)/viewportHeight),
with expected values (0.01, 0.08) at viewport 1000 by 500 and box
(left 10, top 20, width 80, height 20).  The code (extractHandler.ts
line 132) computes the y component as top + height/viewportHeight
because the division binds tighter than the addition, yielding
20 + 20/500 = 501/25 = 20.04 instead of 0.08 = 2/25: the claimed
scenario fails on the code, while midpoint and the x component agree. -/
theorem C3_normalized_midpoint_eval :
    (mkAnnot ⟨1000, 500⟩ ⟨"Stars: 1000", 10, 20, 80, 20⟩).midpoint = ⟨10, 40⟩
    ∧ (mkAnnot ⟨1000, 500⟩ ⟨"Stars: 1000", 10, 20, 80, 20⟩).midpoint_normalized.x = 1/100
    ∧ (mkAnnot ⟨1000, 500⟩ ⟨"Stars: 1000", 10, 20, 80, 20⟩).midpoint_normalized.y = 501/25
    ∧ (mkAnnot ⟨1000, 500⟩ ⟨"Stars: 1000", 10, 20, 80, 20⟩).midpoint_normalized.y ≠ (20 + 20)/500
    ∧ annotsOf ⟨1000, 500⟩ [⟨"Stars: 1000", 10, 20, 80, 20⟩] =
        [mkAnnot ⟨1000, 500⟩ ⟨"Stars: 1000", 10, 20, 80, 20⟩] := by
  refine ⟨?_, ?_, ?_, ?_, ?_⟩ <;>
    norm_num [mkAnnot, annotsOf, processBoxList, annotKey]

/-- Claim C5: the emitted annot list contains exactly one annot per
distinct dedup key, duplicates are collapsed, and annots appear in the
order in which their key first occurred: the loop output equals the map
of the annot constructor over the first-occurrence deduplication of the
boxes, the resulting keys are nodup and cover exactly the keys of the
input, the kept boxes form a sublist (order preserved), and the
selector-map loop over all entries equals the flat loop over the
concatenated boxes. -/
theorem C5_dedup_first_occurrence (vp : Viewport) (boxes : List Box) :
    annotsOf vp boxes = (dedupByFirst annotKey boxes).map (mkAnnot vp)
    ∧ ((dedupByFirst annotKey boxes).map annotKey).Nodup
    ∧ (∀ k, k ∈ (dedupByFirst annotKey boxes).map annotKey ↔ k ∈ boxes.map annotKey)
    ∧ (dedupByFirst annotKey boxes).Sublist boxes
    ∧ (∀ (α : Type) (resp : Except String (ExtractionResponse α))
        (f : String → List Box) (svs : List (List String)),
        collectBoxLoop (pureOracle f vp svs resp) [] [] svs =
          Except.ok (processBoxList vp [] [] ((svs.map fun xps => f (xps.headD "")).flatten))) := by
  refine ⟨?_, dedupByFirst_keys_nodup _ _, dedupByFirst_keys_mem _ _,
    dedupByFirst_sublist _ _, fun α resp f svs => collectBoxLoop_pure resp f vp svs svs [] []⟩
  have h := processBoxList_snd vp boxes [] []
  rw [annotsOf, h]
  have : (boxes.filter fun b => decide (annotKey b ∉ ([] : List BoxKey))) = boxes := by
    apply List.filter_eq_self.mpr
    intro a _
    simp
  rw [this]
  simp

/-- Claim C1 (counterexample): with an oracle whose bounding-box
evaluation throws after the boxes were injected into the live page,
StagehandExtractHandler.extract propagates the error and the live DOM
does not equal the pre-extraction snapshot: restoreDOM is not executed
on this exit path (there is no try/finally around lines 81-144). -/
theorem C1_counterexample :
    (StagehandExtractHandler.extract
      { pureOracle (fun _ => ([] : List Box)) ⟨1000, 500⟩ [["xp"]]
          (Except.ok ⟨⟨true⟩, ()⟩) with
        getElementBoundingBoxes := fun _ => Except.error "eval failed" }
      "snapshot").2 ≠ "snapshot"
    ∧ (StagehandExtractHandler.extract
      { pureOracle (fun _ => ([] : List Box)) ⟨1000, 500⟩ [["xp"]]
          (Except.ok ⟨⟨true⟩, ()⟩) with
        getElementBoundingBoxes := fun _ => Except.error "eval failed" }
      "snapshot").1 = Except.error "eval failed" := by
  constructor
  · decide
  · rfl

/-- Claim C1 (amended): the live DOM equals the pre-extraction snapshot
after extract returns whenever the bounding-box collection loop
completes without error; since restoreDOM runs before the completion
call, this covers every successful return and every failure of the
completion call, the debug cleanup, or the completed gate.  When
selector-map computation or a bounding-box evaluation throws after the
boxes were injected, the error propagates without restoring the DOM
(see the counterexample). -/
theorem C1_dom_restoration_amended {α : Type} (oracle : ExtractOracle α) (dom0 : String)
    (h : ∀ svs, oracle.processAllOfDom = Except.ok svs →
      oracle.createTextBoundingBoxes = Except.ok () →
      ∃ p, collectBoxLoop oracle [] [] svs = Except.ok p) :
    (StagehandExtractHandler.extract oracle dom0).2 = dom0 := by
  cases hw : oracle.waitForSettledDom with
  | error e => simp [StagehandExtractHandler.extract, hw]
  | ok u1 =>
    cases hs : oracle.startDomDebug with
    | error e => simp [StagehandExtractHandler.extract, hw, hs]
    | ok u2 =>
      cases hp : oracle.processAllOfDom with
      | error e => simp [StagehandExtractHandler.extract, hw, hs, hp]
      | ok svs =>
        cases hc : oracle.createTextBoundingBoxes with
        | error e => simp [StagehandExtractHandler.extract, hw, hs, hp, hc]
        | ok u3 =>
          obtain ⟨p, hcol⟩ := h svs hp hc
          cases hr : oracle.inference (formatText p.2) with
          | error e =>
            simp [StagehandExtractHandler.extract, hw, hs, hp, hc, hcol, hr]
          | ok resp =>
            cases hcl : oracle.cleanupDomDebug with
            | error e =>
              simp [StagehandExtractHandler.extract, hw, hs, hp, hc, hcol, hr, hcl]
            | ok u4 =>
              by_cases hcomp : resp.metadata.completed <;>
                simp [StagehandExtractHandler.extract, hw, hs, hp, hc, hcol, hr, hcl, hcomp]

theorem C1_witness :
    (StagehandExtractHandler.extract
      (pureOracle (fun _ => [(⟨"t", 10, 20, 80, 20⟩ : Box)]) ⟨1000, 500⟩ [["xp"]]
        (Except.ok ⟨⟨true⟩, ()⟩)) "snapshot").2 = "snapshot" :=
  C1_dom_restoration_amended _ _ (by
    intro svs hp _
    simp only [pureOracle] at hp
    cases hp
    exact ⟨_, rfl⟩)

/-- Claim C2: extract returns data only from an inference response whose
metadata.completed flag is true, and whenever the inference response
carries completed = false the call raises the incomplete-extraction
error "Extraction not completed" instead of returning the data. -/
theorem C2_completion_gate {α : Type} (oracle : ExtractOracle α) (dom0 : String) :
    (∀ a : α, (StagehandExtractHandler.extract oracle dom0).1 = Except.ok a →
      ∃ s r, oracle.inference s = Except.ok r ∧ r.metadata.completed = true ∧ a = r.output)
    ∧ (∀ svs p r, oracle.waitForSettledDom = Except.ok () →
        oracle.startDomDebug = Except.ok () →
        oracle.processAllOfDom = Except.ok svs →
        oracle.createTextBoundingBoxes = Except.ok () →
        collectBoxLoop oracle [] [] svs = Except.ok p →
        oracle.inference (formatText p.2) = Except.ok r →
        r.metadata.completed = false →
        oracle.cleanupDomDebug = Except.ok () →
        (StagehandExtractHandler.extract oracle dom0).1 =
          Except.error "Extraction not completed") := by
  constructor
  · intro a ha
    cases hw : oracle.waitForSettledDom with
    | error e => simp [StagehandExtractHandler.extract, hw] at ha
    | ok u1 =>
      cases hs : oracle.startDomDebug with
      | error e => simp [StagehandExtractHandler.extract, hw, hs] at ha
      | ok u2 =>
        cases hp : oracle.processAllOfDom with
        | error e => simp [StagehandExtractHandler.extract, hw, hs, hp] at ha
        | ok svs =>
          cases hc : oracle.createTextBoundingBoxes with
          | error e => simp [StagehandExtractHandler.extract, hw, hs, hp, hc] at ha
          | ok u3 =>
            cases hcol : collectBoxLoop oracle [] [] svs with
            | error e =>
              simp [StagehandExtractHandler.extract, hw, hs, hp, hc, hcol] at ha
            | ok p =>
              cases hr : oracle.inference (formatText p.2) with
              | error e =>
                simp [StagehandExtractHandler.extract, hw, hs, hp, hc, hcol, hr] at ha
              | ok resp =>
                cases hcl : oracle.cleanupDomDebug with
                | error e =>
                  simp [StagehandExtractHandler.extract, hw, hs, hp, hc, hcol, hr, hcl] at ha
                | ok u4 =>
                  by_cases hcomp : resp.metadata.completed
                  · refine ⟨formatText p.2, resp, hr, hcomp, ?_⟩
                    simp [StagehandExtractHandler.extract, hw, hs, hp, hc, hcol, hr,
                      hcl, hcomp] at ha
                    exact ha.symm
                  · simp [StagehandExtractHandler.extract, hw, hs, hp, hc, hcol, hr,
                      hcl, hcomp] at ha
  · intro svs p r hw hs hp hc hcol hr hcomp hcl
    simp [StagehandExtractHandler.extract, hw, hs, hp, hc, hcol, hr, hcl, hcomp]

theorem C2_witness :
    (StagehandExtractHandler.extract
      (pureOracle (fun _ => ([] : List Box)) ⟨10, 10⟩ []
        (Except.ok ⟨⟨false⟩, ()⟩)) "dom").1 =
      Except.error "Extraction not completed" :=
  (C2_completion_gate _ _).2 [] ([], []) ⟨⟨false⟩, ()⟩ rfl rfl rfl rfl rfl rfl rfl rfl

/-! ### Claim C4: the retry bound of the tool-call-forcing backend -/

lemma anthropicAux_no_tool (vendor : AnthRequest → AnthropicResponse)
    (m : String) (now : Nat) (cache : List (AnthropicCacheOptions × LLMValue))
    (o : ChatCompletionOptions) (rm : ResponseModel)
    (hrm : o.response_model = some rm)
    (htool : ∀ req, (vendor req).content.find? isToolUseBlock = none) :
    ∀ k r, r + k = 5 →
    anthropicAux vendor false m now (k + 1) cache { o with retries := some r } =
      (Except.error "Create Chat Completion Failed: No tool use with input in response",
        cache, List.replicate (k + 1) CacheEvent.vendorCall) := by
  intro k
  induction k with
  | zero =>
    intro r hr
    have hnlt : ¬ r < 5 := by omega
    rw [anthropicAux.eq_2]
    simp [cacheGet, hrm, htool, hnlt]
  | succ k ih =>
    intro r hr
    have hrlt : r < 5 := by omega
    have ih2 := ih (r + 1) (by omega)
    rw [hrm] at ih2
    rw [anthropicAux.eq_2]
    simp [cacheGet, hrm, htool, hrlt, ih2, List.replicate_succ]

/-- Claim C4 (counterexample): with a backend that never invokes the
forcing tool, AnthropicClient.createChatCompletion makes 6 total
attempts — not exactly 5 as claimed — before raising the terminal
no-tool-use error: the initial call carries retries undefined, each
recursive call increments it, and the condition
!options.retries || options.retries < 5 lets retries pass through
undefined, 1, 2, 3, 4 and 5. -/
theorem C4_counterexample :
    (AnthropicClient.createChatCompletion sampleVendor false "m" 0 []
      { sampleOptions with response_model := some ⟨"MySchema", "s"⟩ }).2.2.countP
        isVendorCall = 6
    ∧ ¬ ((AnthropicClient.createChatCompletion sampleVendor false "m" 0 []
      { sampleOptions with response_model := some ⟨"MySchema", "s"⟩ }).2.2.countP
        isVendorCall = 5)
    ∧ (AnthropicClient.createChatCompletion sampleVendor false "m" 0 []
      { sampleOptions with response_model := some ⟨"MySchema", "s"⟩ }).1 =
      Except.error "Create Chat Completion Failed: No tool use with input in response" :=
  ⟨by decide, by decide, rfl⟩

/-- Claim C4 (amended): with a response model requested, a fresh retries
counter and a backend that never invokes the forcing tool, exactly 6
total attempts are made — the initial call plus 5 recursive retries —
after which the terminal "no tool use in response" error is raised; the
recursion never exceeds this bound (the trace is exactly 6 vendor
calls). -/
theorem C4_retry_bound_amended (vendor : AnthRequest → AnthropicResponse)
    (m : String) (now : Nat) (cache : List (AnthropicCacheOptions × LLMValue))
    (o : ChatCompletionOptions) (rm : ResponseModel)
    (hrm : o.response_model = some rm) (hre : o.retries = none)
    (htool : ∀ req, (vendor req).content.find? isToolUseBlock = none) :
    (AnthropicClient.createChatCompletion vendor false m now cache o).2.2 =
      List.replicate 6 CacheEvent.vendorCall
    ∧ (AnthropicClient.createChatCompletion vendor false m now cache o).1 =
      Except.error "Create Chat Completion Failed: No tool use with input in response"
    ∧ (AnthropicClient.createChatCompletion vendor false m now cache o).2.2.countP
        isVendorCall = 6 := by
  have hlem : anthropicAux vendor false m now 5 cache { o with retries := some 1 } =
      (Except.error "Create Chat Completion Failed: No tool use with input in response",
        cache, List.replicate 5 CacheEvent.vendorCall) := by
    have h := anthropicAux_no_tool vendor m now cache o rm hrm htool 4 1 (by omega)
    norm_num at h
    exact h
  rw [hrm] at hlem
  have hmain : (AnthropicClient.createChatCompletion vendor false m now cache o).2.2 =
        List.replicate 6 CacheEvent.vendorCall
      ∧ (AnthropicClient.createChatCompletion vendor false m now cache o).1 =
        Except.error "Create Chat Completion Failed: No tool use with input in response" := by
    unfold AnthropicClient.createChatCompletion
    rw [hre]
    rw [show (5 - (none : Option Nat).getD 0 + 1) = 5 + 1 from rfl]
    rw [anthropicAux.eq_2]
    simp [cacheGet, hrm, htool, hre, hlem, List.replicate_succ]
  refine ⟨hmain.1, hmain.2, ?_⟩
  rw [hmain.1]
  decide

theorem C4_witness :
    (AnthropicClient.createChatCompletion sampleVendor false "m" 0 []
      { sampleOptions with response_model := some ⟨"MySchema", "s"⟩ }).2.2 =
      List.replicate 6 CacheEvent.vendorCall :=
  (C4_retry_bound_amended sampleVendor "m" 0 []
    { sampleOptions with response_model := some ⟨"MySchema", "s"⟩ } ⟨"MySchema", "s"⟩
    rfl rfl (fun _ => rfl)).1

/-! ### Claim C6: requestId is not part of the cache identity -/

lemma anthropicAux_rid (vendor : AnthRequest → AnthropicResponse) (ec : Bool)
    (m : String) (now : Nat) :
    ∀ (fuel : Nat) (cache : List (AnthropicCacheOptions × LLMValue))
      (ms : List ChatMessage) (t tp fp pp : Option ℚ) (im : Option ImageInput)
      (rmo : Option ResponseModel) (tl : Option (List Tool))
      (rid1 rid2 : Option String) (mt rt : Option Nat),
    anthropicAux vendor ec m now fuel cache ⟨ms, t, tp, fp, pp, im, rmo, tl, rid1, mt, rt⟩ =
    anthropicAux vendor ec m now fuel cache ⟨ms, t, tp, fp, pp, im, rmo, tl, rid2, mt, rt⟩ := by
  intro fuel
  induction fuel with
  | zero => intro cache ms t tp fp pp im rmo tl rid1 rid2 mt rt; rfl
  | succ fuel ih =>
    intro cache ms t tp fp pp im rmo tl rid1 rid2 mt rt
    rw [anthropicAux.eq_2, anthropicAux.eq_2]
    simp only [cacheGet, cacheSet, anthCacheOptions, buildAnthropicRequest, anthToolsOf]
    rw [ih cache ms t tp fp pp im rmo tl rid1 rid2 mt (some (rt.getD 0 + 1))]

lemma openaiCreate_rid (vendorO : OpenAIRequest → OpenAIResponse) (ec : Bool)
    (m : String) :
    ∀ (cache : List (OpenAICacheOptions × LLMValue))
      (ms : List ChatMessage) (t tp fp pp : Option ℚ) (im : Option ImageInput)
      (rmo : Option ResponseModel) (tl : Option (List Tool))
      (rid1 rid2 : Option String) (mt rt : Option Nat),
    OpenAIClient.createChatCompletion vendorO ec m cache
        ⟨ms, t, tp, fp, pp, im, rmo, tl, rid1, mt, rt⟩ =
    OpenAIClient.createChatCompletion vendorO ec m cache
        ⟨ms, t, tp, fp, pp, im, rmo, tl, rid2, mt, rt⟩ := by
  intro cache ms t tp fp pp im rmo tl rid1 rid2 mt rt
  unfold OpenAIClient.createChatCompletion
  simp only [cacheGet, cacheSet, openaiCacheOptions, buildOpenAIRequest]

/-- Claim C6: in both adapters the cacheOptions fingerprint excludes
requestId, so two CompletionRequests differing only in requestId
produce the same fingerprint and, since the cache lookup treats
requestId as tracing metadata, the same hit or miss outcome — in fact
the entire observable outcome of either adapter (result, cache state,
caller-visible messages, trace) is unchanged. -/
theorem C6_requestId_cache_identity (m : String) (o : ChatCompletionOptions)
    (rid : Option String) :
    anthCacheOptions m { o with requestId := rid } = anthCacheOptions m o
    ∧ openaiCacheOptions m { o with requestId := rid } = openaiCacheOptions m o
    ∧ (∀ (vendor : AnthRequest → AnthropicResponse) (ec : Bool) (now : Nat)
        (cache : List (AnthropicCacheOptions × LLMValue)),
        AnthropicClient.createChatCompletion vendor ec m now cache { o with requestId := rid } =
        AnthropicClient.createChatCompletion vendor ec m now cache o)
    ∧ (∀ (vendorO : OpenAIRequest → OpenAIResponse) (ec : Bool)
        (cache : List (OpenAICacheOptions × LLMValue)),
        OpenAIClient.createChatCompletion vendorO ec m cache { o with requestId := rid } =
        OpenAIClient.createChatCompletion vendorO ec m cache o) := by
  obtain ⟨ms, t, tp, fp, pp, im, rmo, tl, rid0, mt, rt⟩ := o
  exact ⟨rfl, rfl,
    fun vendor ec now cache => anthropicAux_rid vendor ec m now _ cache ms t tp fp pp im rmo tl rid rid0 mt rt,
    fun vendorO ec cache => openaiCreate_rid vendorO ec m cache ms t tp fp pp im rmo tl rid rid0 mt rt⟩

/-- Claim C7: with caching enabled, a cache hit returns the cached
value unchanged with no vendor call and no cache write; on a cache miss
the vendor call is performed and, for an attempt that produces its
result directly (no response model requested, or the response contains
a tool_use block), the fingerprint-to-result entry is written before
the result is returned (the trace is read, vendor call, write, in that
order). -/
theorem C7_cache_hit_miss (vendor : AnthRequest → AnthropicResponse) (m : String)
    (now : Nat) (cache : List (AnthropicCacheOptions × LLMValue))
    (o : ChatCompletionOptions) :
    (∀ v, cacheGet cache (anthCacheOptions m o) o.requestId = some v →
      AnthropicClient.createChatCompletion vendor true m now cache o =
        (Except.ok v, cache, [CacheEvent.get (anthCacheOptions m o)]))
    ∧ (cacheGet cache (anthCacheOptions m o) o.requestId = none →
        (o.response_model = none →
          AnthropicClient.createChatCompletion vendor true m now cache o =
            (Except.ok (LLMValue.raw (transformResponse now (vendor (buildAnthropicRequest m o)))),
             cacheSet cache (anthCacheOptions m o)
               (LLMValue.raw (transformResponse now (vendor (buildAnthropicRequest m o))))
               o.requestId,
             [CacheEvent.get (anthCacheOptions m o), CacheEvent.vendorCall,
              CacheEvent.set (anthCacheOptions m o)
                (LLMValue.raw (transformResponse now (vendor (buildAnthropicRequest m o))))]))
        ∧ (∀ rm tid tname tinput, o.response_model = some rm →
            (vendor (buildAnthropicRequest m o)).content.find? isToolUseBlock =
              some (AnthRespBlock.toolUse tid tname tinput) →
            AnthropicClient.createChatCompletion vendor true m now cache o =
              (Except.ok (LLMValue.structured tinput),
               cacheSet cache (anthCacheOptions m o) (LLMValue.structured tinput) o.requestId,
               [CacheEvent.get (anthCacheOptions m o), CacheEvent.vendorCall,
                CacheEvent.set (anthCacheOptions m o) (LLMValue.structured tinput)]))) := by
  refine ⟨?_, fun hmiss => ⟨?_, ?_⟩⟩
  · intro v hv
    unfold AnthropicClient.createChatCompletion
    rw [anthropicAux.eq_2]
    simp [hv]
  · intro hrm
    unfold AnthropicClient.createChatCompletion
    rw [anthropicAux.eq_2]
    simp [hmiss, hrm]
  · intro rm tid tname tinput hrm hfind
    unfold AnthropicClient.createChatCompletion
    rw [anthropicAux.eq_2]
    simp [hmiss, hrm, hfind]

theorem C7_witness :
    AnthropicClient.createChatCompletion sampleVendor true "m" 0
        [(anthCacheOptions "m" sampleOptions, LLMValue.structured "v")] sampleOptions =
      (Except.ok (LLMValue.structured "v"),
        [(anthCacheOptions "m" sampleOptions, LLMValue.structured "v")],
        [CacheEvent.get (anthCacheOptions "m" sampleOptions)])
    ∧ AnthropicClient.createChatCompletion sampleVendor true "m" 0 [] sampleOptions =
      (Except.ok (LLMValue.raw (transformResponse 0
          (sampleVendor (buildAnthropicRequest "m" sampleOptions)))),
        cacheSet [] (anthCacheOptions "m" sampleOptions)
          (LLMValue.raw (transformResponse 0
            (sampleVendor (buildAnthropicRequest "m" sampleOptions))))
          sampleOptions.requestId,
        [CacheEvent.get (anthCacheOptions "m" sampleOptions), CacheEvent.vendorCall,
         CacheEvent.set (anthCacheOptions "m" sampleOptions)
           (LLMValue.raw (transformResponse 0
             (sampleVendor (buildAnthropicRequest "m" sampleOptions))))]) :=
  ⟨(C7_cache_hit_miss sampleVendor "m" 0
      [(anthCacheOptions "m" sampleOptions, LLMValue.structured "v")] sampleOptions).1
      (LLMValue.structured "v") (by rfl),
   ((C7_cache_hit_miss sampleVendor "m" 0 [] sampleOptions).2 (by rfl)).1 rfl⟩

/-! ### Claim C8: retries is part of the fingerprint; reads precede writes -/

lemma anthropicAux_sets_after_gets (vendor : AnthRequest → AnthropicResponse)
    (ec : Bool) (m : String) (now : Nat) :
    ∀ (fuel : Nat) (cache : List (AnthropicCacheOptions × LLMValue))
      (o : ChatCompletionOptions),
    ∃ pre post,
      (anthropicAux vendor ec m now fuel cache o).2.2 = pre ++ post
      ∧ pre.all (fun e => !(isSetEvent e)) = true
      ∧ post.all (fun e => !(isGetEvent e)) = true := by
  intro fuel
  induction fuel with
  | zero => intro cache o; exact ⟨[], [], rfl, rfl, rfl⟩
  | succ fuel ih =>
    intro cache o
    rw [anthropicAux.eq_2]
    cases hc : (if ec then cacheGet cache (anthCacheOptions m o) o.requestId else none) with
    | some v =>
      exact ⟨[CacheEvent.get (anthCacheOptions m o)], [], rfl, rfl, rfl⟩
    | none =>
      cases hrm : o.response_model with
      | none =>
        refine ⟨(if ec then [CacheEvent.get (anthCacheOptions m o)] else []) ++
            [CacheEvent.vendorCall],
          (if ec then [CacheEvent.set (anthCacheOptions m o)
            (LLMValue.raw (transformResponse now (vendor (buildAnthropicRequest m o))))] else []),
          by simp, ?_, ?_⟩
        · cases ec <;> simp [isSetEvent]
        · cases ec <;> simp [isGetEvent]
      | some rm_ =>
        cases hf : (vendor (buildAnthropicRequest m o)).content.find? isToolUseBlock with
        | some blk =>
          cases blk with
          | toolUse tid tname tinput =>
            refine ⟨(if ec then [CacheEvent.get (anthCacheOptions m o)] else []) ++
                [CacheEvent.vendorCall],
              (if ec then [CacheEvent.set (anthCacheOptions m o)
                (LLMValue.structured tinput)] else []),
              by simp [hf], ?_, ?_⟩
            · cases ec <;> simp [isSetEvent]
            · cases ec <;> simp [isGetEvent]
          | text t =>
            by_cases hlt : (o.retries).getD 0 < 5
            · obtain ⟨pre, post, hpp, hpre, hpost⟩ :=
                ih cache { o with retries := some ((o.retries).getD 0 + 1) }
              rw [hrm] at hpp
              refine ⟨(if ec then [CacheEvent.get (anthCacheOptions m o)] else []) ++
                  [CacheEvent.vendorCall] ++ pre, post, ?_, ?_, hpost⟩
              · simp [hf, hlt, hpp]
              · cases ec <;> simp [isSetEvent, isGetEvent] <;> simpa using hpre
            · refine ⟨(if ec then [CacheEvent.get (anthCacheOptions m o)] else []) ++
                  [CacheEvent.vendorCall], [], ?_, ?_, rfl⟩
              · simp [hf, hlt]
              · cases ec <;> simp [isSetEvent]
        | none =>
          by_cases hlt : (o.retries).getD 0 < 5
          · obtain ⟨pre, post, hpp, hpre, hpost⟩ :=
              ih cache { o with retries := some ((o.retries).getD 0 + 1) }
            rw [hrm] at hpp
            refine ⟨(if ec then [CacheEvent.get (anthCacheOptions m o)] else []) ++
                [CacheEvent.vendorCall] ++ pre, post, ?_, ?_, hpost⟩
            · simp [hf, hlt, hpp]
            · cases ec <;> simp [isSetEvent, isGetEvent] <;> simpa using hpre
          · refine ⟨(if ec then [CacheEvent.get (anthCacheOptions m o)] else []) ++
                [CacheEvent.vendorCall], [], ?_, ?_, rfl⟩
            · simp [hf, hlt]
            · cases ec <;> simp [isSetEvent]

lemma getKeys_nil {K V : Type} : getKeys ([] : List (CacheEvent K V)) = [] := rfl

lemma getKeys_append {K V : Type} (a b : List (CacheEvent K V)) :
    getKeys (a ++ b) = getKeys a ++ getKeys b := by
  simp [getKeys]

lemma getKeys_get_cons {K V : Type} (k : K) (t : List (CacheEvent K V)) :
    getKeys (CacheEvent.get k :: t) = k :: getKeys t := by
  simp [getKeys]

lemma getKeys_vendor_cons {K V : Type} (t : List (CacheEvent K V)) :
    getKeys (CacheEvent.vendorCall :: t) = getKeys t := by
  simp [getKeys]

lemma getKeys_set_cons {K V : Type} (k : K) (v : V) (t : List (CacheEvent K V)) :
    getKeys (CacheEvent.set k v :: t) = getKeys t := by
  simp [getKeys]

lemma anthropicAux_get_keys (vendor : AnthRequest → AnthropicResponse)
    (ec : Bool) (m : String) (now : Nat) :
    ∀ (fuel : Nat) (cache : List (AnthropicCacheOptions × LLMValue))
      (o : ChatCompletionOptions),
    (getKeys (anthropicAux vendor ec m now fuel cache o).2.2).Pairwise
      (fun a b => (a.retries).getD 0 < (b.retries).getD 0)
    ∧ ∀ k ∈ getKeys (anthropicAux vendor ec m now fuel cache o).2.2,
        (o.retries).getD 0 ≤ (k.retries).getD 0 := by
  intro fuel
  induction fuel with
  | zero =>
    intro cache o
    rw [anthropicAux.eq_1]
    exact ⟨List.Pairwise.nil, by intro k hk; simp [getKeys] at hk⟩
  | succ fuel ih =>
    intro cache o
    rw [anthropicAux.eq_2]
    cases hc : (if ec then cacheGet cache (anthCacheOptions m o) o.requestId else none) with
    | some v =>
      constructor
      · simp [getKeys_get_cons, getKeys_nil]
      · intro k hk
        rw [getKeys_get_cons, getKeys_nil] at hk
        rw [List.mem_singleton] at hk
        subst hk
        exact le_refl _
    | none =>
      have hdirect : ∀ (tail : List (CacheEvent AnthropicCacheOptions LLMValue)),
          getKeys tail = [] →
          (getKeys ((if ec then [CacheEvent.get (anthCacheOptions m o)] else []) ++
            [CacheEvent.vendorCall] ++ tail)).Pairwise
              (fun a b => (a.retries).getD 0 < (b.retries).getD 0)
          ∧ ∀ k ∈ getKeys ((if ec then [CacheEvent.get (anthCacheOptions m o)] else []) ++
              [CacheEvent.vendorCall] ++ tail),
              (o.retries).getD 0 ≤ (k.retries).getD 0 := by
        intro tail htail
        cases ec <;>
          simp only [if_true, if_false, ite_true, ite_false, getKeys_append,
            getKeys_get_cons, getKeys_vendor_cons, getKeys_nil, List.nil_append,
            htail, List.append_nil] <;>
          constructor
        · exact List.Pairwise.nil
        · intro k hk; simp [getKeys] at hk
        · simp
        · intro k hk
          rw [List.mem_singleton] at hk
          subst hk
          exact le_refl _
      have hretry : (o.retries).getD 0 < 5 →
          (getKeys ((if ec then [CacheEvent.get (anthCacheOptions m o)] else []) ++
            [CacheEvent.vendorCall] ++
            (anthropicAux vendor ec m now fuel cache
              { o with retries := some ((o.retries).getD 0 + 1) }).2.2)).Pairwise
              (fun a b => (a.retries).getD 0 < (b.retries).getD 0)
          ∧ ∀ k ∈ getKeys ((if ec then [CacheEvent.get (anthCacheOptions m o)] else []) ++
              [CacheEvent.vendorCall] ++
              (anthropicAux vendor ec m now fuel cache
                { o with retries := some ((o.retries).getD 0 + 1) }).2.2),
              (o.retries).getD 0 ≤ (k.retries).getD 0 := by
        intro _
        obtain ⟨hpw, hbd⟩ := ih cache { o with retries := some ((o.retries).getD 0 + 1) }
        have hbd2 : ∀ k ∈ getKeys (anthropicAux vendor ec m now fuel cache
            { o with retries := some ((o.retries).getD 0 + 1) }).2.2,
            (o.retries).getD 0 + 1 ≤ (k.retries).getD 0 := by
          intro k hk
          simpa using hbd k hk
        cases ec with
        | false =>
          simp only [if_false, ite_false, getKeys_append, getKeys_vendor_cons,
            getKeys_nil, List.nil_append]
          refine ⟨hpw, ?_⟩
          intro k hk
          have := hbd2 k hk
          omega
        | true =>
          simp only [if_true, ite_true, getKeys_append, getKeys_get_cons,
            getKeys_vendor_cons, getKeys_nil, List.nil_append, List.singleton_append]
          constructor
          · rw [List.pairwise_cons]
            refine ⟨?_, hpw⟩
            intro a ha
            have := hbd2 a ha
            have hkey : (anthCacheOptions m o).retries = o.retries := rfl
            rw [hkey]
            omega
          · intro k hk
            rw [List.mem_cons] at hk
            rcases hk with hk | hk
            · subst hk; exact le_refl _
            · have := hbd2 k hk
              omega
      cases hrm : o.response_model with
      | none =>
        exact hdirect _ (by cases ec <;> rfl)
      | some rm_ =>
        rw [hrm] at hretry
        dsimp only
        cases hf : (vendor (buildAnthropicRequest m o)).content.find? isToolUseBlock with
        | some blk =>
          cases blk with
          | toolUse tid tname tinput =>
            exact hdirect _ (by cases ec <;> rfl)
          | text t =>
            dsimp only
            by_cases hlt : (o.retries).getD 0 < 5
            · have h := hretry hlt
              rw [if_pos hlt]
              exact h
            · rw [if_neg hlt]
              simpa using hdirect [] rfl
        | none =>
          dsimp only
          by_cases hlt : (o.retries).getD 0 < 5
          · have h := hretry hlt
            rw [if_pos hlt]
            exact h
          · rw [if_neg hlt]
            simpa using hdirect [] rfl

/-- Claim C8: the Anthropic adapter includes the retries counter in the
cacheOptions fingerprint, so attempts with different retries values use
distinct fingerprints; moreover in any run every cache write occurs
after every cache read (earlier attempts write nothing before
recursing) and the lookup keys of the attempts are pairwise distinct,
so a retry never hits an entry written by a prior attempt of the same
logical call. -/
theorem C8_retry_fingerprints (m : String) (o : ChatCompletionOptions) :
    (∀ r1 r2 : Option Nat, r1 ≠ r2 →
      anthCacheOptions m { o with retries := r1 } ≠
        anthCacheOptions m { o with retries := r2 })
    ∧ (∀ (vendor : AnthRequest → AnthropicResponse) (ec : Bool) (now : Nat)
        (cache : List (AnthropicCacheOptions × LLMValue)),
        ∃ pre post,
          (AnthropicClient.createChatCompletion vendor ec m now cache o).2.2 = pre ++ post
          ∧ pre.all (fun e => !(isSetEvent e)) = true
          ∧ post.all (fun e => !(isGetEvent e)) = true)
    ∧ (∀ (vendor : AnthRequest → AnthropicResponse) (ec : Bool) (now : Nat)
        (cache : List (AnthropicCacheOptions × LLMValue)),
        (getKeys (AnthropicClient.createChatCompletion vendor ec m now cache o).2.2).Pairwise
          (fun a b => a ≠ b)) := by
  refine ⟨?_, ?_, ?_⟩
  · intro r1 r2 hne heq
    apply hne
    have := congrArg AnthropicCacheOptions.retries heq
    simpa [anthCacheOptions] using this
  · intro vendor ec now cache
    exact anthropicAux_sets_after_gets vendor ec m now _ cache o
  · intro vendor ec now cache
    have h := (anthropicAux_get_keys vendor ec m now
      (5 - (o.retries).getD 0 + 1) cache o).1
    refine h.imp ?_
    intro a b hlt heq
    rw [heq] at hlt
    exact lt_irrefl _ hlt

theorem C8_witness :
    anthCacheOptions "m" { sampleOptions with retries := none } ≠
      anthCacheOptions "m" { sampleOptions with retries := some 1 } :=
  (C8_retry_fingerprints "m" sampleOptions).1 none (some 1) (by decide)

/-! ### Claims C9 and C10 -/

/-- Claim C9: in the Anthropic adapter, a non-system message with array
content is formatted part by part, text parts become text blocks and
every image part becomes undefined (none), so no message derived from
options.messages ever contains an image block; the request messages are
exactly the formatted non-system messages followed by the screenshot
turn built from options.image, hence when options.image is absent no
image block reaches the backend at all. -/
theorem C9_text_only_forwarding (m : String) (o : ChatCompletionOptions) :
    ((buildAnthropicRequest m o).messages =
      (userMessages o.messages).map anthFormatMessage ++
        (match o.image with
         | some img => [anthScreenshotMessage img]
         | none => []))
    ∧ (∀ role ps, anthFormatMessage ⟨role, MsgContent.parts ps⟩ =
        ⟨role, AnthContent.blocks (ps.map anthPartToBlock)⟩)
    ∧ (∀ p, isImagePart p = true → anthPartToBlock p = none)
    ∧ (∀ msg, msg ∈ (userMessages o.messages).map anthFormatMessage →
        msgHasImageBlock msg = false)
    ∧ (o.image = none → ∀ msg, msg ∈ (buildAnthropicRequest m o).messages →
        msgHasImageBlock msg = false) := by
  have hforward : ∀ msg, msg ∈ (userMessages o.messages).map anthFormatMessage →
      msgHasImageBlock msg = false := by
    intro msg hmsg
    rcases List.mem_map.mp hmsg with ⟨m0, _, rfl⟩
    cases hcon : m0.content with
    | str s => simp [anthFormatMessage, hcon, msgHasImageBlock]
    | parts ps =>
      simp only [anthFormatMessage, hcon, msgHasImageBlock]
      rw [List.any_eq_false]
      intro b hb
      rcases List.mem_map.mp hb with ⟨p0, _, rfl⟩
      cases p0 <;> simp [anthPartToBlock, blockIsImage]
  refine ⟨rfl, fun role ps => rfl, ?_, hforward, ?_⟩
  · intro p hp
    cases p with
    | text t => simp [isImagePart] at hp
    | image u => rfl
  · intro himg msg hmsg
    simp only [buildAnthropicRequest, himg, List.append_nil] at hmsg
    exact hforward msg hmsg

theorem C9_witness :
    anthPartToBlock (ContentPart.image "u") = none
    ∧ msgHasImageBlock (anthFormatMessage ⟨"user",
        MsgContent.parts [ContentPart.text "a", ContentPart.image "u"]⟩) = false :=
  ⟨(C9_text_only_forwarding "m" sampleOptions).2.2.1 (ContentPart.image "u") rfl,
   (C9_text_only_forwarding "m" { sampleOptions with messages :=
        [⟨"user", MsgContent.parts [ContentPart.text "a", ContentPart.image "u"]⟩] }).2.2.2.1
      _ (List.mem_map.mpr ⟨_, by simp [userMessages], rfl⟩)⟩

/-- Claim C10 (counterexample): when caching is enabled and the cache
already holds an entry for the request fingerprint, the OpenAI adapter
returns before the screenshot push, so even though options.image is
present the caller-visible message list is unchanged — the claim that
the message list is observably longer whenever options.image is present
fails on the cache-hit path. -/
theorem C10_counterexample :
    ({ sampleOptions with image := some ⟨"img", none⟩ } :
        ChatCompletionOptions).image.isSome = true
    ∧ (OpenAIClient.createChatCompletion sampleOpenAIVendor true "m"
        [(openaiCacheOptions "m" { sampleOptions with image := some ⟨"img", none⟩ },
          LLMValue.openaiParsed (some "x"))]
        { sampleOptions with image := some ⟨"img", none⟩ }).2.2.1 =
      ({ sampleOptions with image := some ⟨"img", none⟩ } :
        ChatCompletionOptions).messages
    ∧ (OpenAIClient.createChatCompletion sampleOpenAIVendor true "m"
        [(openaiCacheOptions "m" { sampleOptions with image := some ⟨"img", none⟩ },
          LLMValue.openaiParsed (some "x"))]
        { sampleOptions with image := some ⟨"img", none⟩ }).2.2.1.length =
      ({ sampleOptions with image := some ⟨"img", none⟩ } :
        ChatCompletionOptions).messages.length :=
  ⟨rfl, rfl, rfl⟩

/-- Claim C10 (amended): when the call proceeds past the cache read
(caching disabled or cache miss), OpenAIClient.createChatCompletion
mutates its argument if options.image is present: the synthesized
screenshot user message is appended to the caller-supplied
options.messages array after the cache read and before the vendor call
and cache write, so the caller-visible message list is one longer after
the call; when options.image is absent the messages are unchanged.  On
a cache hit the cached value is returned before the push and the
messages are unchanged even when options.image is present. -/
theorem C10_mutation_amended (vendorO : OpenAIRequest → OpenAIResponse) (ec : Bool)
    (m : String) (cache : List (OpenAICacheOptions × LLMValue))
    (o : ChatCompletionOptions)
    (hmiss : (if ec then cacheGet cache (openaiCacheOptions m o) o.requestId else none) =
      none) :
    (∀ img, o.image = some img →
      (OpenAIClient.createChatCompletion vendorO ec m cache o).2.2.1 =
        o.messages ++ [openaiScreenshotMessage img]
      ∧ (OpenAIClient.createChatCompletion vendorO ec m cache o).2.2.1.length =
        o.messages.length + 1
      ∧ ∃ setPart, (OpenAIClient.createChatCompletion vendorO ec m cache o).2.2.2 =
          (if ec then [CacheEvent.get (openaiCacheOptions m o)] else []) ++
            [CacheEvent.pushMessage, CacheEvent.vendorCall] ++ setPart
          ∧ ∀ e ∈ setPart, isSetEvent e = true)
    ∧ (o.image = none →
        (OpenAIClient.createChatCompletion vendorO ec m cache o).2.2.1 = o.messages) := by
  unfold OpenAIClient.createChatCompletion
  dsimp only
  constructor
  · intro img himg
    rw [hmiss]
    cases hrm : o.response_model with
    | some rm_ =>
      refine ⟨by simp [himg], by simp [himg], ?_⟩
      refine ⟨if ec then [CacheEvent.set (openaiCacheOptions m
        { o with messages := o.messages ++ [openaiScreenshotMessage img] })
        (LLMValue.openaiParsed (vendorO (buildOpenAIRequest m
          { o with messages := o.messages ++ [openaiScreenshotMessage img] })).content)]
        else [], ?_, ?_⟩
      · simp [himg, hrm]
      · cases ec <;> simp [isSetEvent]
    | none =>
      refine ⟨by simp [himg], by simp [himg], ?_⟩
      refine ⟨if ec then [CacheEvent.set (openaiCacheOptions m
        { o with messages := o.messages ++ [openaiScreenshotMessage img] })
        (LLMValue.openaiRaw (vendorO (buildOpenAIRequest m
          { o with messages := o.messages ++ [openaiScreenshotMessage img] })))]
        else [], ?_, ?_⟩
      · simp [himg, hrm]
      · cases ec <;> simp [isSetEvent]
  · intro himg
    rw [hmiss]
    cases hrm : o.response_model <;> simp [himg, hrm]

theorem C10_witness :
    (OpenAIClient.createChatCompletion sampleOpenAIVendor false "m" []
      { sampleOptions with image := some ⟨"img", none⟩ }).2.2.1 =
      sampleOptions.messages ++ [openaiScreenshotMessage ⟨"img", none⟩] :=
  ((C10_mutation_amended sampleOpenAIVendor false "m" []
      { sampleOptions with image := some ⟨"img", none⟩ } rfl).1 ⟨"img", none⟩ rfl).1
